import Mathlib

/-!
Verification of the data-parallel training utilities of the multi-GPU
training notebook (`src/unnamed/part_000`): `allreduce`, `split_and_load`,
`SGD` and the gradient-sync / update portion of `train_batch`.

Tensors are embedded as flat lists of rationals together with a device
(context) tag; exact rational arithmetic stands in for the framework's
float arithmetic, as the spec's claims are stated "in exact arithmetic".
-/

namespace MultiGpu

/-- An NDArray: a device tag (`ctx`, the GPU index) and its flat contents. -/
structure NDArray where
  ctx : ℕ
  val : List ℚ
  deriving Repr, DecidableEq

instance : Inhabited NDArray := ⟨⟨0, []⟩⟩

/-- Elementwise addition of two same-shaped value buffers
(`a += b` on flat contents). -/
def addVal (a b : List ℚ) : List ℚ := List.zipWith (· + ·) a b

/-- Embedding of
```python
def allreduce(data):
    # sum on data[0].context, and then broadcast
    for i in range(1, len(data)):
        data[0][:] += data[i].copyto(data[0].context)
    for i in range(1, len(data)):
        data[0].copyto(data[i])
```
The first loop accumulates every later tensor (copied to `data[0]`'s
context) into `data[0]` in place, in index order; the second loop
overwrites each later tensor's contents with `data[0]`'s contents
(each keeps its own context). The in-place mutation of the Python list
is rendered as returning the new list. -/
def allreduce (data : List NDArray) : List NDArray :=
  match data with
  | [] => []
  | d0 :: rest =>
    let home := rest.foldl (fun a d => { a with val := addVal a.val d.val }) d0
    home :: rest.map (fun d => { d with val := home.val })

/-- Python errors that the embedded code can raise. -/
inductive PyError where
  | zeroDivisionError   -- `n // k` with `k = 0`
  | assertionError      -- the divisibility `assert`
  | valueError          -- `range(..., step=0)`
  deriving Repr, DecidableEq

/-- `list(range(start, stop, step))` for natural `step`; raises
`ValueError` when `step = 0`, otherwise yields
`start, start+step, ...` while `< stop`. -/
def pyRange3 (start stop step : ℕ) : Except PyError (List ℕ) :=
  if step = 0 then .error .valueError
  else .ok (List.range' start ((stop - start + step - 1) / step) step)

/-- A batch shard placed on a device: a device tag and the rows it holds. -/
structure Shard (α : Type) where
  ctx : ℕ
  rows : List α
  deriving Repr, DecidableEq

instance {α : Type} : Inhabited (Shard α) := ⟨⟨0, []⟩⟩

/-- Embedding of
```python
def split_and_load(data, ctx):
    n, k = data.shape[0], len(ctx)
    assert (n//k)*k == n, '# examples is not divided by # devices'
    idx = list(range(0, n+1, n//k))
    return [data[idx[i]:idx[i+1]].as_in_context(ctx[i]) for i in range(k)]
```
`data` is the batch as a list of `n` rows; `ctx` is the device list.
`n // k` raises `ZeroDivisionError` when `k = 0`; the `assert` raises
`AssertionError` when `k` does not divide `n`; `range(0, n+1, n//k)`
raises `ValueError` when the step `n//k` is zero; the Python slice
`data[a:b]` (with `0 ≤ a ≤ b ≤ n`) is `(data.drop a).take (b - a)`. -/
def split_and_load {α : Type} (data : List α) (ctx : List ℕ) :
    Except PyError (List (Shard α)) :=
  let n := data.length
  let k := ctx.length
  if k = 0 then .error .zeroDivisionError
  else if (n / k) * k = n then
    match pyRange3 0 (n + 1) (n / k) with
    | .error e => .error e
    | .ok idx =>
      .ok ((List.range k).map (fun i =>
        ⟨ctx.getD i 0,
         (data.drop (idx.getD i 0)).take (idx.getD (i + 1) 0 - idx.getD i 0)⟩))
  else .error .assertionError

/-- A parameter replica on one device: device tag, values and the
attached gradient buffer (`p` and `p.grad`). -/
structure Param where
  ctx : ℕ
  val : List ℚ
  grad : List ℚ
  deriving Repr, DecidableEq

instance : Inhabited Param := ⟨⟨0, [], []⟩⟩

/-- Embedding of
```python
def SGD(params, lr):
    for p in params:
        p[:] = p - lr * p.grad
```
Each parameter tensor is updated in place to `p - lr * p.grad`,
elementwise. -/
def SGD (params : List Param) (lr : ℚ) : List Param :=
  params.map (fun p =>
    { p with val := List.zipWith (fun v g => v - lr * g) p.val p.grad })

/-- The per-device gradient NDArrays for parameter index `i`:
`[params[c][i].grad for c in range(len(ctx))]`, each living on its
device's context. -/
def gradsAt (params : List (List Param)) (i : ℕ) : List NDArray :=
  params.map (fun dev => ⟨(dev.getD i default).ctx, (dev.getD i default).grad⟩)

/-- Write an allreduced gradient NDArray back into a device's parameter
list at index `i` (only the gradient buffer changes). -/
def setGradAt (dev : List Param) (i : ℕ) (g : NDArray) : List Param :=
  dev.set i { dev.getD i default with grad := g.val }

/-- One iteration of the gradient-aggregation loop of `train_batch`:
`allreduce([params[c][i].grad for c in range(len(ctx))])`, whose
in-place effect is written back into every device's replica. -/
def allreduceStep (params : List (List Param)) (i : ℕ) : List (List Param) :=
  List.zipWith (fun dev g => setGradAt dev i g) params (allreduce (gradsAt params i))

/-- Embedding of the gradient-sync and update portion of
```python
def train_batch(batch, params, ctx, lr):
    ...
    # aggregate gradient over GPUs
    for i in range(len(params[0])):
        allreduce([params[c][i].grad for c in range(len(ctx))])
    # update parameters with SGD on each GPU
    for p in params:
        SGD(p, lr/batch.data[0].shape[0])
```
The forward/backward passes (`lenet`, `loss`, `autograd`) are delegated
to the framework; here the per-device gradient buffers populated by
`backward` are taken as the `grad` fields of the input `params`.
`batchSize` is `batch.data[0].shape[0]`, the full (pre-split) batch row
count, and `len(ctx) = len(params)` (one replica per device). -/
def train_batch_update (params : List (List Param)) (batchSize : ℕ) (lr : ℚ) :
    List (List Param) :=
  let synced := (List.range (params.headD []).length).foldl allreduceStep params
  synced.map (fun p => SGD p (lr / (batchSize : ℚ)))

/-- The elementwise sum of a list of same-shaped tensors, written
directly from the spec's words: entry `j` is `Σ_k g_k[j]`. -/
def elemSum (ds : List NDArray) (m : ℕ) : List ℚ :=
  (List.range m).map (fun j => (ds.map (fun d => d.val.getD j 0)).sum)

/-! ### Helper lemmas about `allreduce` -/

lemma addVal_length (a b : List ℚ) : (addVal a b).length = min a.length b.length :=
  List.length_zipWith _ _ _

lemma addVal_getD (a b : List ℚ) (j : ℕ) (hja : j < a.length) (hjb : j < b.length) :
    (addVal a b).getD j 0 = a.getD j 0 + b.getD j 0 := by
  have hj : j < (addVal a b).length := by
    rw [addVal_length]; exact lt_min hja hjb
  rw [List.getD_eq_getElem _ _ hj, List.getD_eq_getElem _ _ hja,
    List.getD_eq_getElem _ _ hjb]
  exact List.getElem_zipWith

lemma acc_ctx (rest : List NDArray) (a : NDArray) :
    (rest.foldl (fun a d => { a with val := addVal a.val d.val }) a).ctx = a.ctx := by
  induction rest generalizing a with
  | nil => rfl
  | cons d rest ih => simpa using ih _

lemma acc_length (rest : List NDArray) (a : NDArray) (m : ℕ)
    (ha : a.val.length = m) (h : ∀ d ∈ rest, d.val.length = m) :
    (rest.foldl (fun a d => { a with val := addVal a.val d.val }) a).val.length = m := by
  induction rest generalizing a with
  | nil => exact ha
  | cons d rest ih =>
    simp only [List.foldl_cons]
    exact ih _ (by rw [addVal_length, ha, h d (by simp), min_self])
      (fun d' hd' => h d' (by simp [hd']))

lemma acc_getD (rest : List NDArray) (a : NDArray) (m : ℕ)
    (ha : a.val.length = m) (h : ∀ d ∈ rest, d.val.length = m)
    (j : ℕ) (hj : j < m) :
    (rest.foldl (fun a d => { a with val := addVal a.val d.val }) a).val.getD j 0
      = a.val.getD j 0 + (rest.map (fun d => d.val.getD j 0)).sum := by
  induction rest generalizing a with
  | nil => simp
  | cons d rest ih =>
    have hd : d.val.length = m := h d (by simp)
    have ha' : (addVal a.val d.val).length = m := by
      rw [addVal_length, ha, hd, min_self]
    simp only [List.foldl_cons, List.map_cons, List.sum_cons]
    rw [ih _ ha' (fun d' hd' => h d' (by simp [hd'])),
      addVal_getD _ _ j (ha ▸ hj) (hd ▸ hj), add_assoc]

lemma allreduce_length (ds : List NDArray) : (allreduce ds).length = ds.length := by
  cases ds <;> simp [allreduce]

lemma elemSum_length (ds : List NDArray) (m : ℕ) : (elemSum ds m).length = m := by
  simp [elemSum]

lemma elemSum_getD (ds : List NDArray) (m : ℕ) (j : ℕ) (hj : j < m) :
    (elemSum ds m).getD j 0 = (ds.map (fun d => d.val.getD j 0)).sum := by
  have hj' : j < (elemSum ds m).length := by rw [elemSum_length]; exact hj
  rw [List.getD_eq_getElem _ _ hj']
  simp [elemSum]

/-- The value broadcast by `allreduce` from the home device is the
elementwise sum of all the inputs. -/
lemma allreduce_val (ds : List NDArray) (m : ℕ)
    (hsh : ∀ d ∈ ds, d.val.length = m) :
    ∀ c < ds.length, ((allreduce ds).getD c default).val = elemSum ds m := by
  cases ds with
  | nil => intro c hc; exact absurd hc (by simp)
  | cons d0 rest =>
    have h0 : d0.val.length = m := hsh d0 (by simp)
    have hrest : ∀ d ∈ rest, d.val.length = m := fun d hd => hsh d (by simp [hd])
    set home := rest.foldl (fun a d => { a with val := addVal a.val d.val }) d0 with hhome
    have hlen : home.val.length = m := acc_length rest d0 m h0 hrest
    have hval : home.val = elemSum (d0 :: rest) m := by
      apply List.ext_getElem (by rw [hlen, elemSum_length])
      intro j hj hj'
      have hjm : j < m := by rwa [hlen] at hj
      rw [← List.getD_eq_getElem _ 0 hj, ← List.getD_eq_getElem _ 0 hj',
        elemSum_getD _ _ j hjm, acc_getD rest d0 m h0 hrest j hjm]
      simp
    intro c hc
    match c with
    | 0 => simpa [allreduce] using hval
    | Nat.succ k =>
      have hk : k < rest.length := by simpa using hc
      simp only [allreduce, List.getD_cons_succ]
      rw [List.getD_eq_getElem _ _ (by simpa using hk)]
      simp only [List.getElem_map]
      rw [← hhome]
      exact hval

lemma allreduce_ctx (ds : List NDArray) :
    ∀ c < ds.length, ((allreduce ds).getD c default).ctx = (ds.getD c default).ctx := by
  cases ds with
  | nil => intro c hc; exact absurd hc (by simp)
  | cons d0 rest =>
    intro c hc
    match c with
    | 0 => simpa [allreduce] using acc_ctx rest d0
    | Nat.succ k =>
      have hk : k < rest.length := by simpa using hc
      simp only [allreduce, List.getD_cons_succ]
      rw [List.getD_eq_getElem _ _ (by simpa using hk),
        List.getD_eq_getElem _ _ hk]
      simp

/-! ### Claim theorems about `allreduce` -/

/-- C1: after `allreduce` on a non-empty list of K same-shaped gradient
tensors, the list still has K entries and every entry's contents equal
the exact elementwise sum of the K inputs; in particular all K results
are numerically identical to each other. -/
theorem allreduce_is_elementwise_sum (ds : List NDArray) (m : ℕ)
    (_hne : ds ≠ []) (hsh : ∀ d ∈ ds, d.val.length = m) :
    (allreduce ds).length = ds.length ∧
    (∀ c < ds.length, ((allreduce ds).getD c default).val = elemSum ds m) ∧
    (∀ c < ds.length, ∀ c' < ds.length,
      ((allreduce ds).getD c default).val = ((allreduce ds).getD c' default).val) := by
  refine ⟨allreduce_length ds, allreduce_val ds m hsh, ?_⟩
  intro c hc c' hc'
  rw [allreduce_val ds m hsh c hc, allreduce_val ds m hsh c' hc']

theorem allreduce_is_elementwise_sum_witness :
    ((allreduce [⟨0, [1, 1]⟩, ⟨1, [2, 2]⟩]).getD 1 default).val
      = elemSum [⟨0, [1, 1]⟩, ⟨1, [2, 2]⟩] 2 :=
  (allreduce_is_elementwise_sum [⟨0, [1, 1]⟩, ⟨1, [2, 2]⟩] 2 (by decide)
    (by decide)).2.1 1 (by decide)

/-- C9: on a one-element list, `allreduce` is the identity: both loops
have empty ranges, so the single tensor is returned exactly unchanged. -/
theorem allreduce_singleton_identity (d : NDArray) : allreduce [d] = [d] := rfl

/-- C10: `allreduce` only rewrites the contents of the K tensors of its
list: the list keeps its length, every tensor keeps its device context
and its shape, and every tensor at index ≥ 1 ends up holding a copy of
the home tensor at index 0. -/
theorem allreduce_frame (ds : List NDArray) (m : ℕ)
    (hsh : ∀ d ∈ ds, d.val.length = m) :
    (allreduce ds).length = ds.length ∧
    (∀ c < ds.length, ((allreduce ds).getD c default).ctx = (ds.getD c default).ctx) ∧
    (∀ c < ds.length, ((allreduce ds).getD c default).val.length = m) ∧
    (∀ c, 0 < c → c < ds.length →
      ((allreduce ds).getD c default).val = ((allreduce ds).getD 0 default).val) ∧
    (0 < ds.length → ((allreduce ds).getD 0 default).val = elemSum ds m) := by
  refine ⟨allreduce_length ds, allreduce_ctx ds, ?_, ?_, ?_⟩
  · intro c hc
    rw [allreduce_val ds m hsh c hc]
    exact elemSum_length ds m
  · intro c hc0 hc
    rw [allreduce_val ds m hsh c hc, allreduce_val ds m hsh 0 (lt_of_le_of_lt (Nat.zero_le c) hc)]
  · intro h0
    exact allreduce_val ds m hsh 0 h0

theorem allreduce_frame_witness :
    ((allreduce [⟨0, [1, 1]⟩, ⟨1, [2, 2]⟩]).getD 1 default).ctx
      = (([⟨0, [1, 1]⟩, ⟨1, [2, 2]⟩] : List NDArray).getD 1 default).ctx :=
  (allreduce_frame [⟨0, [1, 1]⟩, ⟨1, [2, 2]⟩] 2 (by decide)).2.1 1 (by decide)

/-- C8: the notebook's concrete example: a 4-row batch split over 2
devices gives shards of 2 rows each (rows 0–1 on device 0, rows 2–3 on
device 1), and all-reducing `[1,1]` (device 0) with `[2,2]` (device 1)
gives `[3,3]` on both devices. -/
theorem example_split_allreduce :
    split_and_load
        ([[0, 1, 2, 3], [4, 5, 6, 7], [8, 9, 10, 11], [12, 13, 14, 15]] : List (List ℚ))
        [0, 1]
      = .ok [⟨0, [[0, 1, 2, 3], [4, 5, 6, 7]]⟩, ⟨1, [[8, 9, 10, 11], [12, 13, 14, 15]]⟩] ∧
    allreduce [⟨0, [1, 1]⟩, ⟨1, [2, 2]⟩] = [⟨0, [3, 3]⟩, ⟨1, [3, 3]⟩] := by
  constructor
  · rfl
  · norm_num [allreduce, addVal]

/-! ### Helper lemmas about `split_and_load` -/

/-- Cutting a list of length `k * s` into `k` successive chunks of `s`
elements and concatenating them gives the list back. -/
lemma flatten_chunks {α : Type} (s : ℕ) :
    ∀ (k : ℕ) (data : List α), data.length = k * s →
      ((List.range k).map (fun i => (data.drop (i * s)).take s)).flatten = data := by
  intro k
  induction k with
  | zero =>
    intro data h
    rw [zero_mul] at h
    rw [List.length_eq_zero.mp h]
    simp
  | succ k ih =>
    intro data h
    rw [List.range_succ_eq_map, List.map_cons, List.map_map, List.flatten_cons]
    have htail : ((List.range k).map
        ((fun i => (data.drop (i * s)).take s) ∘ Nat.succ))
        = (List.range k).map (fun i => ((data.drop s).drop (i * s)).take s) := by
      refine List.map_congr_left ?_
      intro i _
      simp only [Function.comp_apply]
      rw [List.drop_drop]
      congr 2
      rw [Nat.succ_mul]
      exact Nat.add_comm _ _
    rw [htail, ih (data.drop s) (by
      rw [List.length_drop, h, Nat.succ_mul]
      omega)]
    simp [List.take_append_drop]

/-- On a non-empty batch whose size is divisible by the (non-empty)
device count, `split_and_load` returns the list of K contiguous
`N/K`-row shards. -/
lemma split_and_load_eq {α : Type} (data : List α) (ctx : List ℕ)
    (hk : 0 < ctx.length) (hn : 0 < data.length)
    (hdiv : data.length % ctx.length = 0) :
    split_and_load data ctx
      = .ok ((List.range ctx.length).map (fun i =>
          ⟨ctx.getD i 0,
           (data.drop (i * (data.length / ctx.length))).take
             (data.length / ctx.length)⟩)) := by
  have hk0 : ctx.length ≠ 0 := Nat.pos_iff_ne_zero.mp hk
  have hdvd : ctx.length ∣ data.length := Nat.dvd_of_mod_eq_zero hdiv
  have hsk : data.length / ctx.length * ctx.length = data.length :=
    Nat.div_mul_cancel hdvd
  have hs : 0 < data.length / ctx.length := by
    rcases Nat.eq_zero_or_pos (data.length / ctx.length) with h0 | h
    · rw [h0, zero_mul] at hsk; omega
    · exact h
  have hrange : pyRange3 0 (data.length + 1) (data.length / ctx.length)
      = .ok (List.range' 0 (ctx.length + 1) (data.length / ctx.length)) := by
    rw [pyRange3, if_neg (Nat.pos_iff_ne_zero.mp hs)]
    congr 1
    have h1 : data.length + 1 - 0 + data.length / ctx.length - 1
        = data.length + data.length / ctx.length := by omega
    rw [h1, Nat.add_div_right _ hs]
    have h2 : data.length / (data.length / ctx.length) = ctx.length :=
      Nat.div_div_self hdvd (Nat.pos_iff_ne_zero.mp hn)
    rw [h2]
  have hgetD : ∀ i ≤ ctx.length,
      (List.range' 0 (ctx.length + 1) (data.length / ctx.length)).getD i 0
        = data.length / ctx.length * i := by
    intro i hi
    rw [List.getD_eq_getElem _ _ (by simp [List.length_range']; omega)]
    simp [List.getElem_range']
  rw [split_and_load]
  rw [if_neg hk0, if_pos hsk, hrange]
  show Except.ok _ = Except.ok _
  refine congrArg Except.ok (List.map_congr_left ?_)
  intro i hi
  have hik : i < ctx.length := List.mem_range.mp hi
  rw [hgetD i (le_of_lt hik), hgetD (i + 1) hik]
  have hsub : data.length / ctx.length * (i + 1) - data.length / ctx.length * i
      = data.length / ctx.length := by
    rw [Nat.mul_succ]; omega
  rw [hsub, mul_comm]

/-! ### Claim theorems about `split_and_load` -/

/-- C2 counterexample: the empty batch with one device: 0 is divisible
by 1, yet `split_and_load` raises `ValueError` (from `range(0, 1, 0)`)
instead of returning shards. -/
theorem split_empty_batch_one_device_fails :
    0 < ([0] : List ℕ).length ∧
    ([] : List (List ℚ)).length % ([0] : List ℕ).length = 0 ∧
    split_and_load ([] : List (List ℚ)) [0] = .error .valueError :=
  ⟨by decide, by decide, rfl⟩

/-- C2 (amended to batches of at least one row): for every batch of
size `N ≥ 1` and device list of size `K ≥ 1` with `K ∣ N`,
`split_and_load` returns exactly K contiguous shards of `N/K` rows
each, shard `i` holding rows `i*(N/K) .. (i+1)*(N/K)-1`, so that
concatenating the shards in device order reconstructs the batch. -/
theorem split_and_load_partitions (data : List (List ℚ)) (ctx : List ℕ)
    (hk : 0 < ctx.length) (hn : 0 < data.length)
    (hdiv : data.length % ctx.length = 0) :
    ∃ shards, split_and_load data ctx = Except.ok shards ∧
      shards.length = ctx.length ∧
      (∀ i < ctx.length, (shards.getD i default).rows
          = (data.drop (i * (data.length / ctx.length))).take
              (data.length / ctx.length)) ∧
      (∀ i < ctx.length,
        (shards.getD i default).rows.length = data.length / ctx.length) ∧
      (shards.map Shard.rows).flatten = data := by
  refine ⟨_, split_and_load_eq data ctx hk hn hdiv, by simp, ?_, ?_, ?_⟩
  · intro i hi
    rw [List.getD_eq_getElem _ _ (by simpa using hi)]
    simp
  · intro i hi
    rw [List.getD_eq_getElem _ _ (by simpa using hi)]
    simp only [List.getElem_map, List.getElem_range, List.length_take,
      List.length_drop]
    have hle : (i + 1) * (data.length / ctx.length) ≤ data.length := by
      calc (i + 1) * (data.length / ctx.length)
          ≤ ctx.length * (data.length / ctx.length) :=
            Nat.mul_le_mul_right _ hi
        _ = data.length := by
            rw [mul_comm]; exact Nat.div_mul_cancel (Nat.dvd_of_mod_eq_zero hdiv)
    rw [Nat.succ_mul] at hle
    omega
  · rw [List.map_map]
    exact flatten_chunks _ _ _
      (by rw [mul_comm]; exact (Nat.div_mul_cancel (Nat.dvd_of_mod_eq_zero hdiv)).symm)

theorem split_and_load_partitions_witness :
    ∃ shards,
      split_and_load ([[1, 2], [3, 4]] : List (List ℚ)) [0, 1] = Except.ok shards ∧
      shards.length = ([0, 1] : List ℕ).length ∧
      (∀ i < ([0, 1] : List ℕ).length, (shards.getD i default).rows
          = (([[1, 2], [3, 4]] : List (List ℚ)).drop (i * (2 / 2))).take (2 / 2)) ∧
      (∀ i < ([0, 1] : List ℕ).length, (shards.getD i default).rows.length = 2 / 2) ∧
      (shards.map Shard.rows).flatten = ([[1, 2], [3, 4]] : List (List ℚ)) :=
  split_and_load_partitions [[1, 2], [3, 4]] [0, 1] (by decide) (by decide) (by decide)

/-- C3: when the batch size is not divisible by the device count
(K ≥ 1), `split_and_load` fails with the `assert`'s precondition
violation. -/
theorem split_and_load_indivisible_asserts (data : List (List ℚ)) (ctx : List ℕ)
    (hk : 0 < ctx.length) (hdiv : data.length % ctx.length ≠ 0) :
    split_and_load data ctx = .error .assertionError := by
  have hk0 : ctx.length ≠ 0 := Nat.pos_iff_ne_zero.mp hk
  have hne : data.length / ctx.length * ctx.length ≠ data.length := by
    intro he
    have h2 : ctx.length * (data.length / ctx.length) = data.length := by
      rw [mul_comm]; exact he
    have h3 := Nat.div_add_mod data.length ctx.length
    rw [h2] at h3
    exact hdiv (by omega)
  rw [split_and_load]
  rw [if_neg hk0, if_neg hne]

theorem split_and_load_indivisible_asserts_witness :
    split_and_load ([[1], [2], [3]] : List (List ℚ)) [0, 1]
      = .error .assertionError :=
  split_and_load_indivisible_asserts [[1], [2], [3]] [0, 1] (by decide) (by decide)

/-- C6 counterexample: the empty batch on two devices: 0 is divisible
by 2, so the divisibility check passes, yet `split_and_load` still
fails — `range(0, 1, 0)` raises `ValueError`. Divisibility is therefore
not the only error condition. -/
theorem split_empty_batch_two_devices_fails :
    0 < ([0, 1] : List ℕ).length ∧
    ([] : List (List ℚ)).length % ([0, 1] : List ℕ).length = 0 ∧
    split_and_load ([] : List (List ℚ)) [0, 1] = .error .valueError :=
  ⟨by decide, by decide, rfl⟩

/-- C6 (amended to batches of at least one row): for every batch of
size `N ≥ 1` and device list of size `K ≥ 1` with `K ∣ N`,
`split_and_load` succeeds; only `N = 0` additionally fails (with a
`ValueError` from the zero-step `range`) despite passing the
divisibility check. -/
theorem split_and_load_succeeds_when_divisible (data : List (List ℚ)) (ctx : List ℕ)
    (hk : 0 < ctx.length) (hn : 0 < data.length)
    (hdiv : data.length % ctx.length = 0) :
    ∃ shards, split_and_load data ctx = Except.ok shards :=
  ⟨_, split_and_load_eq data ctx hk hn hdiv⟩

theorem split_and_load_succeeds_when_divisible_witness :
    ∃ shards,
      split_and_load ([[1, 2], [3, 4]] : List (List ℚ)) [0, 1] = Except.ok shards :=
  split_and_load_succeeds_when_divisible [[1, 2], [3, 4]] [0, 1]
    (by decide) (by decide) (by decide)

/-! ### Claim theorem about `SGD` replica synchronization -/

/-- C5: if all device replicas of the parameters are numerically
identical before the update and hold identical (synchronized)
gradients, then after each device independently runs `SGD` with the
same rate, all replicas are again numerically identical. -/
theorem sgd_keeps_replicas_identical (params : List (List Param)) (lr : ℚ)
    (hlen : ∀ c < params.length, ∀ c' < params.length,
      (params.getD c []).length = (params.getD c' []).length)
    (hsync : ∀ c < params.length, ∀ c' < params.length,
      ∀ i < (params.getD c []).length,
        ((params.getD c []).getD i default).val
            = ((params.getD c' []).getD i default).val ∧
        ((params.getD c []).getD i default).grad
            = ((params.getD c' []).getD i default).grad) :
    ∀ c < params.length, ∀ c' < params.length,
      ∀ i < (params.getD c []).length,
        (((params.map (fun p => SGD p lr)).getD c []).getD i default).val
          = (((params.map (fun p => SGD p lr)).getD c' []).getD i default).val := by
  intro c hc c' hc' i hi
  have hmap : ∀ b < params.length,
      (params.map (fun p => SGD p lr)).getD b [] = SGD (params.getD b []) lr := by
    intro b hb
    rw [List.getD_eq_getElem _ _ (by simpa using hb), List.getElem_map,
      List.getD_eq_getElem _ _ hb]
  rw [hmap c hc, hmap c' hc']
  have hi' : i < (params.getD c' []).length := (hlen c hc c' hc') ▸ hi
  have hsgd : ∀ (dev : List Param) (i : ℕ), i < dev.length →
      ((SGD dev lr).getD i default).val
        = List.zipWith (fun v g => v - lr * g)
            ((dev.getD i default).val) ((dev.getD i default).grad) := by
    intro dev i hidev
    rw [SGD, List.getD_eq_getElem _ _ (by simpa using hidev), List.getElem_map,
      List.getD_eq_getElem _ _ hidev]
  rw [hsgd _ i hi, hsgd _ i hi',
    (hsync c hc c' hc' i hi).1, (hsync c hc c' hc' i hi).2]

theorem sgd_keeps_replicas_identical_witness :
    ((((([[⟨0, [1], [2]⟩], [⟨1, [1], [2]⟩]] : List (List Param))).map
        (fun p => SGD p 3)).getD 0 []).getD 0 default).val
      = (((([[⟨0, [1], [2]⟩], [⟨1, [1], [2]⟩]] : List (List Param)).map
          (fun p => SGD p 3)).getD 1 []).getD 0 default).val :=
  sgd_keeps_replicas_identical [[⟨0, [1], [2]⟩], [⟨1, [1], [2]⟩]] 3
    (by decide) (by decide) 0 (by decide) 1 (by decide) 0 (by decide)

/-! ### Helper lemmas about the gradient-sync loop of `train_batch` -/

lemma gradsAt_length (ps : List (List Param)) (i : ℕ) :
    (gradsAt ps i).length = ps.length := List.length_map _ _

lemma setGradAt_length (dev : List Param) (i : ℕ) (g : NDArray) :
    (setGradAt dev i g).length = dev.length := by
  rw [setGradAt, List.length_set]

lemma setGradAt_getD_ne (dev : List Param) (i : ℕ) (g : NDArray) (j : ℕ)
    (hji : j ≠ i) :
    (setGradAt dev i g).getD j default = dev.getD j default := by
  simp only [setGradAt]
  by_cases hj : j < dev.length
  · rw [List.getD_eq_getElem _ _ (by simpa using hj),
      List.getD_eq_getElem _ _ hj]
    exact List.getElem_set_ne (Ne.symm hji) _
  · rw [List.getD_eq_default _ _ (by simp; omega),
      List.getD_eq_default _ _ (by omega)]

lemma setGradAt_getD_val_ctx (dev : List Param) (i : ℕ) (g : NDArray) (j : ℕ) :
    ((setGradAt dev i g).getD j default).val = ((dev.getD j default)).val ∧
    ((setGradAt dev i g).getD j default).ctx = ((dev.getD j default)).ctx := by
  by_cases hji : j = i
  · subst hji
    simp only [setGradAt]
    by_cases hj : j < dev.length
    · rw [List.getD_eq_getElem _ _ (by simpa using hj)]
      constructor <;> simp [List.getElem_set_self]
    · rw [List.set_eq_of_length_le (by omega)]
      exact ⟨rfl, rfl⟩
  · rw [setGradAt_getD_ne _ _ _ _ hji]
    exact ⟨rfl, rfl⟩

lemma setGradAt_getD_grad (dev : List Param) (i : ℕ) (g : NDArray)
    (hi : i < dev.length) :
    ((setGradAt dev i g).getD i default).grad = g.val := by
  simp only [setGradAt]
  rw [List.getD_eq_getElem _ _ (by simpa using hi)]
  simp [List.getElem_set_self]

lemma allreduceStep_length (ps : List (List Param)) (i : ℕ) :
    (allreduceStep ps i).length = ps.length := by
  rw [allreduceStep, List.length_zipWith, allreduce_length, gradsAt_length,
    min_self]

lemma allreduceStep_getD (ps : List (List Param)) (i : ℕ) (c : ℕ)
    (hc : c < ps.length) :
    (allreduceStep ps i).getD c []
      = setGradAt (ps.getD c []) i ((allreduce (gradsAt ps i)).getD c default) := by
  rw [allreduceStep,
    List.getD_eq_getElem _ _ (by
      rw [List.length_zipWith, allreduce_length, gradsAt_length, min_self]
      exact hc),
    List.getElem_zipWith, List.getD_eq_getElem _ _ hc,
    List.getD_eq_getElem _ _ (by rw [allreduce_length, gradsAt_length]; exact hc)]

lemma fold_length (l : List ℕ) (ps : List (List Param)) :
    (l.foldl allreduceStep ps).length = ps.length := by
  induction l generalizing ps with
  | nil => rfl
  | cons i l ih => rw [List.foldl_cons, ih, allreduceStep_length]

lemma fold_devlen (l : List ℕ) (ps : List (List Param)) (c : ℕ)
    (hc : c < ps.length) :
    ((l.foldl allreduceStep ps).getD c []).length = (ps.getD c []).length := by
  induction l generalizing ps with
  | nil => rfl
  | cons i l ih =>
    rw [List.foldl_cons, ih _ (by rw [allreduceStep_length]; exact hc),
      allreduceStep_getD _ _ _ hc, setGradAt_length]

lemma fold_val_ctx (l : List ℕ) (ps : List (List Param)) (c j : ℕ)
    (hc : c < ps.length) :
    (((l.foldl allreduceStep ps).getD c []).getD j default).val
        = ((ps.getD c []).getD j default).val ∧
    (((l.foldl allreduceStep ps).getD c []).getD j default).ctx
        = ((ps.getD c []).getD j default).ctx := by
  induction l generalizing ps with
  | nil => exact ⟨rfl, rfl⟩
  | cons i l ih =>
    rw [List.foldl_cons]
    have hstep := setGradAt_getD_val_ctx (ps.getD c []) i
      ((allreduce (gradsAt ps i)).getD c default) j
    have hrec := ih (allreduceStep ps i) (by rw [allreduceStep_length]; exact hc)
    rw [allreduceStep_getD _ _ _ hc] at hrec
    exact ⟨hrec.1.trans hstep.1, hrec.2.trans hstep.2⟩

lemma fold_entry_not_mem (l : List ℕ) (ps : List (List Param)) (c i : ℕ)
    (hi : i ∉ l) (hc : c < ps.length) :
    ((l.foldl allreduceStep ps).getD c []).getD i default
      = (ps.getD c []).getD i default := by
  induction l generalizing ps with
  | nil => rfl
  | cons i' l ih =>
    have hne : i ≠ i' := fun h => hi (by simp [h])
    have hnl : i ∉ l := fun h => hi (by simp [h])
    rw [List.foldl_cons, ih (allreduceStep ps i') hnl
        (by rw [allreduceStep_length]; exact hc),
      allreduceStep_getD _ _ _ hc, setGradAt_getD_ne _ _ _ _ hne]

lemma allreduceStep_syncs (ps : List (List Param)) (i : ℕ) (m : ℕ)
    (hP : ∀ c < ps.length, i < (ps.getD c []).length)
    (hg : ∀ c < ps.length, ((ps.getD c []).getD i default).grad.length = m) :
    ∀ c < ps.length,
      (((allreduceStep ps i).getD c []).getD i default).grad
        = elemSum (gradsAt ps i) m := by
  intro c hc
  rw [allreduceStep_getD _ _ _ hc, setGradAt_getD_grad _ _ _ (hP c hc)]
  apply allreduce_val
  · intro d hd
    obtain ⟨dev, hdev, rfl⟩ := List.mem_map.mp hd
    obtain ⟨c', hc', rfl⟩ := List.mem_iff_getElem.mp hdev
    have := hg c' hc'
    rwa [List.getD_eq_getElem _ _ hc'] at this
  · rw [gradsAt_length]; exact hc

lemma gradsAt_congr (ps ps' : List (List Param)) (i : ℕ)
    (hlen : ps'.length = ps.length)
    (hentry : ∀ c < ps.length,
      (ps'.getD c []).getD i default = (ps.getD c []).getD i default) :
    gradsAt ps' i = gradsAt ps i := by
  apply List.ext_getElem (by rw [gradsAt_length, gradsAt_length, hlen])
  intro c h1 h2
  have hc : c < ps.length := by rwa [gradsAt_length] at h2
  simp only [gradsAt, List.getElem_map]
  rw [← List.getD_eq_getElem ps' [] (by rw [hlen]; exact hc),
    ← List.getD_eq_getElem ps [] hc, hentry c hc]

/-- After the whole gradient-aggregation loop, every device's gradient
buffer for parameter index `i` holds the elementwise sum of the
original per-device gradients for that index. -/
lemma fold_range_syncs (ps : List (List Param)) (P i m : ℕ)
    (hiP : i < P)
    (hP : ∀ c < ps.length, (ps.getD c []).length = P)
    (hg : ∀ c < ps.length, ((ps.getD c []).getD i default).grad.length = m) :
    ∀ c < ps.length,
      ((((List.range P).foldl allreduceStep ps).getD c []).getD i default).grad
        = elemSum (gradsAt ps i) m := by
  obtain ⟨l1, l2, hsplit⟩ := List.append_of_mem (List.mem_range.mpr hiP)
  have hnd : (List.range P).Nodup := List.nodup_range P
  rw [hsplit] at hnd
  obtain ⟨hnd1, hnd2, hdisj⟩ := List.nodup_append.mp hnd
  have h1 : i ∉ l1 := fun hmem => hdisj hmem (by simp)
  have h2 : i ∉ l2 := (List.nodup_cons.mp hnd2).1
  intro c hc
  rw [hsplit, List.foldl_append, List.foldl_cons]
  have hlen1 : (l1.foldl allreduceStep ps).length = ps.length := fold_length _ _
  have hentry1 : ∀ c' < ps.length,
      ((l1.foldl allreduceStep ps).getD c' []).getD i default
        = (ps.getD c' []).getD i default := by
    intro c' hc'
    exact fold_entry_not_mem l1 ps c' i h1 hc'
  have hga : gradsAt (l1.foldl allreduceStep ps) i = gradsAt ps i :=
    gradsAt_congr ps _ i hlen1 hentry1
  have hsync := allreduceStep_syncs (l1.foldl allreduceStep ps) i m
    (by
      intro c' hc'
      have hc'' : c' < ps.length := by rwa [hlen1] at hc'
      rw [fold_devlen _ _ _ hc'', hP c' hc'']
      exact hiP)
    (by
      intro c' hc'
      have hc'' : c' < ps.length := by rwa [hlen1] at hc'
      rw [hentry1 c' hc'']
      exact hg c' hc'')
  have hc1 : c < (l1.foldl allreduceStep ps).length := by rw [hlen1]; exact hc
  have hc2 : c < (allreduceStep (l1.foldl allreduceStep ps) i).length := by
    rw [allreduceStep_length]; exact hc1
  rw [fold_entry_not_mem l2 _ c i h2 hc2, hsync c hc1, hga]

lemma SGD_getD_val (dev : List Param) (lr : ℚ) (i : ℕ) (hi : i < dev.length)
    (j : ℕ) (hjv : j < (dev.getD i default).val.length)
    (hjg : j < (dev.getD i default).grad.length) :
    ((SGD dev lr).getD i default).val.getD j 0
      = (dev.getD i default).val.getD j 0
        - lr * ((dev.getD i default).grad.getD j 0) := by
  have key : (SGD dev lr).getD i default
      = { dev.getD i default with
          val := List.zipWith (fun v g => v - lr * g)
            (dev.getD i default).val (dev.getD i default).grad } := by
    rw [SGD, List.getD_eq_getElem _ _ (by simpa using hi), List.getElem_map,
      List.getD_eq_getElem _ _ hi]
  rw [key]
  rw [List.getD_eq_getElem _ _ (by rw [List.length_zipWith]; exact lt_min hjv hjg),
    List.getElem_zipWith, List.getD_eq_getElem _ _ hjv,
    List.getD_eq_getElem _ _ hjg]

/-! ### Claim theorem about `train_batch`'s update -/

/-- C4: per device and per parameter, `train_batch`'s update is exactly
plain gradient descent with the synchronized gradient: each device's
new value is the old value minus `lr / batchSize` (the full batch size,
not a per-device shard size) times the sum over all devices of the
original gradients. -/
theorem train_batch_update_is_sgd
    (params : List (List Param)) (batchSize : ℕ) (lr : ℚ) (P : ℕ) (m : ℕ → ℕ)
    (hD : 0 < params.length)
    (hP : ∀ c < params.length, (params.getD c []).length = P)
    (hval : ∀ c < params.length, ∀ i < P,
      ((params.getD c []).getD i default).val.length = m i)
    (hgrad : ∀ c < params.length, ∀ i < P,
      ((params.getD c []).getD i default).grad.length = m i) :
    ∀ c < params.length, ∀ i < P, ∀ j < m i,
      (((train_batch_update params batchSize lr).getD c []).getD i default).val.getD j 0
        = ((params.getD c []).getD i default).val.getD j 0
          - lr / (batchSize : ℚ)
            * (params.map (fun dev => (dev.getD i default).grad.getD j 0)).sum := by
  intro c hc i hi j hj
  have hhead : (params.headD []).length = P := by
    cases params with
    | nil => exact absurd hD (by simp)
    | cons dev rest => simpa using hP 0 (by simp)
  rw [train_batch_update, hhead]
  have hslen : ((List.range P).foldl allreduceStep params).length = params.length :=
    fold_length _ _
  have hmapD : (((List.range P).foldl allreduceStep params).map
        (fun p => SGD p (lr / (batchSize : ℚ)))).getD c []
      = SGD (((List.range P).foldl allreduceStep params).getD c [])
          (lr / (batchSize : ℚ)) := by
    rw [List.getD_eq_getElem _ _ (by rw [List.length_map, hslen]; exact hc),
      List.getElem_map, List.getD_eq_getElem _ _ (by rw [hslen]; exact hc)]
  rw [hmapD]
  have hidev : i < (((List.range P).foldl allreduceStep params).getD c []).length := by
    rw [fold_devlen _ _ _ hc, hP c hc]; exact hi
  have hv := (fold_val_ctx (List.range P) params c i hc).1
  have hg := fold_range_syncs params P i (m i) hi hP
    (fun c' hc' => hgrad c' hc' i hi) c hc
  rw [SGD_getD_val _ _ i hidev j
    (by rw [hv, hval c hc i hi]; exact hj)
    (by rw [hg, elemSum_length]; exact hj)]
  rw [hv, hg, elemSum_getD _ _ j hj]
  have hmaps : (gradsAt params i).map (fun d => d.val.getD j 0)
      = params.map (fun dev => (dev.getD i default).grad.getD j 0) := by
    rw [gradsAt, List.map_map]
    rfl
  rw [hmaps]

theorem train_batch_update_is_sgd_witness :
    (((train_batch_update [[⟨0, [10], [1]⟩], [⟨1, [10], [2]⟩]] 4 2).getD 0 []).getD
        0 default).val.getD 0 0
      = ((([[⟨0, [10], [1]⟩], [⟨1, [10], [2]⟩]] :
            List (List Param)).getD 0 []).getD 0 default).val.getD 0 0
        - 2 / ((4 : ℕ) : ℚ)
          * (([[⟨0, [10], [1]⟩], [⟨1, [10], [2]⟩]] : List (List Param)).map
              (fun dev => (dev.getD 0 default).grad.getD 0 0)).sum :=
  train_batch_update_is_sgd [[⟨0, [10], [1]⟩], [⟨1, [10], [2]⟩]] 4 2 1 (fun _ => 1)
    (by decide) (by decide) (by decide) (by decide) 0 (by decide) 0 (by decide)
    0 (by decide)

end MultiGpu
